import Mathlib

/-!
Verification of the gesture-inference pipeline of `src/cv/punch_detector.py`.

The Python module is shallowly embedded below.  Numeric values are modelled by
`ℚ` (exact arithmetic standing for the Python floats); Python dictionaries keyed
by hand label become association lists with `dget` / `dinsert`; code that can
raise an uncaught exception returns an `Option`, with `none` standing for the
propagated exception.  The single `math.sqrt` appearing in `_is_fist` is
eliminated by comparing squared quantities (`sqrt d < c ↔ d < c²` for `c ≥ 0`);
the `math.sqrt` of `_hand_size` is kept abstract as a function parameter
`sizeOf`, since the detector only ever compares differences of its values.
-/

/-- Python's `str.lower()` as applied to the handedness labels.  Defined by a
structural map over the character list so that concrete strings evaluate inside
`decide`/`rfl` proofs (the library lower-casing function is definitionally
opaque). -/
def String.pyLower (s : String) : String := ⟨s.data.map Char.toLower⟩

/-- A hand landmark: the `(x, y, z)` triple produced by the tracker
(`lm[0]`, `lm[1]`, `lm[2]` in the Python source). -/
structure Lm where
  x : ℚ
  y : ℚ
  z : ℚ
deriving DecidableEq

/-- One tracked hand as handed to the pipeline: its landmark list and its
handedness string (`hd["landmarks"]`, `hd["handedness"]`). -/
structure HandData where
  landmarks : List Lm
  handedness : String
deriving DecidableEq

/-- Python dict lookup `d.get(k)` on an association list (keys are unique in
every dictionary the module builds, so the first match is the entry). -/
def dget (m : List (String × α)) (k : String) : Option α :=
  (m.find? (fun kv => kv.1 = k)).map (fun kv => kv.2)

/-- Python dict assignment `d[k] = v`: replace the entry in place if the key is
present, otherwise append it. -/
def dinsert : List (String × α) → String → α → List (String × α)
  | [], k, v => [(k, v)]
  | kv :: rest, k, v => if kv.1 = k then (k, v) :: rest else kv :: dinsert rest k v

theorem dget_nil (k : String) : dget ([] : List (String × α)) k = none := rfl

theorem dget_cons (a : String) (v : α) (m : List (String × α)) (k : String) :
    dget ((a, v) :: m) k = if a = k then some v else dget m k := by
  by_cases h : a = k <;> simp [dget, h]

theorem dget_dinsert (m : List (String × α)) (k : String) (v : α) (k' : String) :
    dget (dinsert m k v) k' = if k' = k then some v else dget m k' := by
  induction m with
  | nil =>
      by_cases h : k' = k
      · subst h; simp [dinsert, dget_cons]
      · have h' : ¬ k = k' := fun hh => h hh.symm
        simp [dinsert, dget_cons, h, h']
  | cons kv rest ih =>
      rcases kv with ⟨a, b⟩
      by_cases hk : a = k
      · subst hk
        have : dinsert ((a, b) :: rest) a v = (a, v) :: rest := by
          simp [dinsert]
        rw [this]
        by_cases h : k' = a
        · subst h; simp [dget_cons]
        · have h' : ¬ a = k' := fun hh => h hh.symm
          simp [dget_cons, h, h']
      · have : dinsert ((a, b) :: rest) k v = (a, b) :: dinsert rest k v := by
          simp [dinsert, hk]
        rw [this]
        by_cases ha : a = k'
        · have h' : ¬ k' = k := fun hh => hk (ha.trans hh)
          simp [dget_cons, ha, h']
        · simp [dget_cons, ha, ih]

/-- `LANDMARK_SMOOTH_ALPHA`: the EMA blending factor. -/
def LANDMARK_SMOOTH_ALPHA : ℚ := 35/100

/-- One EMA-blended landmark: `α·raw + (1-α)·prev`, each axis independently. -/
def blend (lm pv : Lm) : Lm :=
  ⟨LANDMARK_SMOOTH_ALPHA * lm.x + (1 - LANDMARK_SMOOTH_ALPHA) * pv.x,
   LANDMARK_SMOOTH_ALPHA * lm.y + (1 - LANDMARK_SMOOTH_ALPHA) * pv.y,
   LANDMARK_SMOOTH_ALPHA * lm.z + (1 - LANDMARK_SMOOTH_ALPHA) * pv.z⟩

/-- The body of `for i, lm in enumerate(landmarks)` in `_smooth_landmarks`.
Python's guard `if prev and i < len(prev)` holds exactly when a previous list is
present and `i` is inside it: an empty previous list is falsy, and then
`i < len(prev)` fails as well, so truthiness adds nothing. -/
def smoothStep (prevOpt : Option (List Lm)) (i : ℕ) (lm : Lm) : Lm :=
  match prevOpt with
  | some p =>
      match p[i]? with
      | some pv => blend lm pv
      | none => lm
  | none => lm

/-- The enumerate loop itself, carrying the running index `i`. -/
def smoothGo (prevOpt : Option (List Lm)) (i : ℕ) : List Lm → List Lm
  | [] => []
  | lm :: rest => smoothStep prevOpt i lm :: smoothGo prevOpt (i + 1) rest

/-- Smoothing of one hand's landmark list against its previous smoothed list. -/
def smoothOneHand (prevOpt : Option (List Lm)) (lms : List Lm) : List Lm :=
  smoothGo prevOpt 0 lms

/-- The `for hd in hands_data` loop of `_smooth_landmarks`, accumulating
`(result, new_prev, seen)`.  Lookups always go to the frame-initial
`prev_smoothed`, exactly as in the source. -/
def smoothLoop (prev : List (String × List Lm))
    (acc : List HandData × List (String × List Lm) × List String) :
    List HandData → List HandData × List (String × List Lm) × List String
  | [] => acc
  | hd :: rest =>
      let key := hd.handedness.pyLower
      let sm := smoothOneHand (dget prev key) hd.landmarks
      smoothLoop prev
        (acc.1 ++ [⟨sm, hd.handedness⟩], dinsert acc.2.1 key sm, acc.2.2 ++ [key])
        rest

/-- `_smooth_landmarks`.  The final comprehension keeps only keys in `seen`;
since `new_prev` starts empty and only receives this frame's keys this filter
is a no-op, but it is reproduced for faithfulness. -/
def smooth_landmarks (hands_data : List HandData)
    (prev_smoothed : List (String × List Lm)) :
    List HandData × List (String × List Lm) :=
  let r := smoothLoop prev_smoothed ([], [], []) hands_data
  (r.1, r.2.1.filter (fun kv => r.2.2.contains kv.1))

/-- `tip_closer_than_pip` inside `_is_fist`: squared planar tip-to-wrist
distance at most `1.3` times the squared planar PIP-to-wrist distance. -/
def tip_closer_than_pip (tip pip wrist : Lm) : Bool :=
  decide ((tip.x - wrist.x)^2 + (tip.y - wrist.y)^2 ≤
    ((pip.x - wrist.x)^2 + (pip.y - wrist.y)^2) * (13/10))

/-- `_is_fist`.  The Python body indexes landmarks `4,2,8,6,12,10,16,14,20,18,0`
inside a `try`; every access succeeds exactly when the list has at least 21
entries, and the `except (IndexError, KeyError)` clause turns any failure into
`False` — hence the guard on the length.  (`thumb_mcp = landmarks[2]` is read
but never used afterwards; its only effect, failing on short input, is covered
by the same guard.)  The `math.sqrt` in the hand-span test is eliminated by
comparing the squared span with `0.05² = 1/400`, equivalent since both sides of
the original comparison are nonnegative. -/
def is_fist (lms : List Lm) : Bool :=
  if h : 21 ≤ lms.length then
    let thumb_tip := lms.get ⟨4, by omega⟩
    let index_tip := lms.get ⟨8, by omega⟩
    let index_pip := lms.get ⟨6, by omega⟩
    let middle_tip := lms.get ⟨12, by omega⟩
    let middle_pip := lms.get ⟨10, by omega⟩
    let ring_tip := lms.get ⟨16, by omega⟩
    let ring_pip := lms.get ⟨14, by omega⟩
    let pinky_tip := lms.get ⟨20, by omega⟩
    let pinky_pip := lms.get ⟨18, by omega⟩
    let wrist := lms.get ⟨0, by omega⟩
    let hand_span_sq := (thumb_tip.x - pinky_tip.x)^2 + (thumb_tip.y - pinky_tip.y)^2
    if hand_span_sq < 1/400 then false
    else
      tip_closer_than_pip index_tip index_pip wrist &&
      tip_closer_than_pip middle_tip middle_pip wrist &&
      tip_closer_than_pip ring_tip ring_pip wrist &&
      tip_closer_than_pip pinky_tip pinky_pip wrist
  else false

/-- `_hand_size` up to its `math.sqrt`: the squared bounding-box diagonal of
the planar landmark coordinates.  Like Python's `max`/`min` of an empty
sequence, it is undefined on an empty list. -/
def hand_size_sq (lms : List Lm) : Option ℚ :=
  match lms.map (fun lm => lm.x), lms.map (fun lm => lm.y) with
  | [], _ => none
  | _, [] => none
  | x :: xs, y :: ys =>
      some (((x :: xs).foldl max x - (x :: xs).foldl min x)^2 +
            ((y :: ys).foldl max y - (y :: ys).foldl min y)^2)

/-- `_avg_z`: arithmetic mean of the landmark z values.  On an empty list the
Python division `sum(...) / len(...)` raises `ZeroDivisionError`, modelled by
`none`. -/
def avg_z (lms : List Lm) : Option ℚ :=
  if lms.length = 0 then none
  else some ((lms.map (fun lm => lm.z)).sum / lms.length)

/-- The constructor parameters of `PunchDetector` (with `cooldown_ms` already
divided by 1000, as `__init__` stores it). -/
structure Config where
  velocityThreshold : ℚ
  cooldownSec : ℚ
  historyFrames : ℕ
deriving DecidableEq

/-- One motion-history sample `(t, size, z)`. -/
structure Sample where
  t : ℚ
  size : ℚ
  z : ℚ
deriving DecidableEq

/-- A punch event as put on the queue: `{"type": "punch", "hand": hid,
"strength": strength}` (the constant `"type"` field is left implicit). -/
structure Event where
  hand : String
  strength : ℚ
deriving DecidableEq

/-- The detector's mutable state: `self._history` and `self._last_punch`. -/
structure DetectorState where
  history : List (String × List Sample)
  lastPunch : List (String × ℚ)
deriving DecidableEq

/-- The state of a freshly constructed `PunchDetector`: both dicts empty. -/
def initState : DetectorState := ⟨[], []⟩

/-- `collections.deque(maxlen=m).append`: append on the right, evicting from
the left when the window exceeds its capacity. -/
def dequeAppend (maxlen : ℕ) (xs : List α) (x : α) : List α :=
  let ys := xs ++ [x]
  if maxlen < ys.length then ys.drop (ys.length - maxlen) else ys

/-- The checks of `_update_and_detect` that follow the history append: fist
gate, cooldown gate (`self._last_punch.get(hid, -10)`), window-size gate,
degenerate-span gate, then the toward-camera classification and emission.
`st1` is the state after the history append; `h` is the appended window. -/
def detectCore (cfg : Config) (hid : String) (lms : List Lm) (t : ℚ)
    (h : List Sample) (st1 : DetectorState) : DetectorState × Option Event :=
  if is_fist lms = false then (st1, none)
  else if t - ((dget st1.lastPunch hid).getD (-10)) < cfg.cooldownSec then (st1, none)
  else if h.length < 2 then (st1, none)
  else
    match h.head?, h.getLast? with
    | some a, some b =>
        let dt := b.t - a.t
        if dt ≤ 0 then (st1, none)
        else
          let size_velocity := (b.size - a.size) / dt
          let z_velocity := (b.z - a.z) / dt
          if cfg.velocityThreshold < size_velocity ∨ z_velocity < -(35/100) then
            (⟨st1.history, dinsert st1.lastPunch hid t⟩,
             some ⟨hid, min 1 (|size_velocity| / (cfg.velocityThreshold * 2))⟩)
          else (st1, none)
    | _, _ => (st1, none)

/-- `_update_and_detect`.  `sizeOf` abstracts `_hand_size` (its `math.sqrt`
has no exact ℚ embedding; the detector only compares differences of its
values, so every theorem below holds for an arbitrary such function).  Both
`_hand_size` and `_avg_z` raise an uncaught exception on an empty landmark
list — the only failure the body can propagate — modelled by `none`. -/
def update_and_detect (cfg : Config) (sizeOf : List Lm → ℚ) (handedness : String)
    (lms : List Lm) (t : ℚ) (st : DetectorState) :
    Option (DetectorState × Option Event) :=
  match hand_size_sq lms, avg_z lms with
  | some _, some z =>
      let hid := handedness.pyLower
      let h0 := (dget st.history hid).getD []
      let size := sizeOf lms
      let h := dequeAppend cfg.historyFrames h0 ⟨t, size, z⟩
      let st1 : DetectorState := ⟨dinsert st.history hid h, st.lastPunch⟩
      some (detectCore cfg hid lms t h st1)
  | _, _ => none

/-- `process_hands`: run `_update_and_detect` over the frame's hands in order,
collecting the emitted events in queue order; an uncaught exception aborts the
loop (and the enclosing thread), modelled by `none`. -/
def process_hands (cfg : Config) (sizeOf : List Lm → ℚ) :
    List HandData → ℚ → DetectorState → Option (DetectorState × List Event)
  | [], _, st => some (st, [])
  | h :: rest, t, st =>
      match update_and_detect cfg sizeOf h.handedness h.landmarks t st with
      | none => none
      | some (st1, ev) =>
          match process_hands cfg sizeOf rest t st1 with
          | none => none
          | some (st2, evs) => some (st2, ev.toList ++ evs)

/-- A run of the detector over successive frames `(hands_data, timestamp)`,
pairing each emitted event with the timestamp of the frame that emitted it. -/
def runFrames (cfg : Config) (sizeOf : List Lm → ℚ) :
    List (List HandData × ℚ) → DetectorState →
    Option (DetectorState × List (ℚ × Event))
  | [], st => some (st, [])
  | (hands, t) :: rest, st =>
      match process_hands cfg sizeOf hands t st with
      | none => none
      | some (st1, evs) =>
          match runFrames cfg sizeOf rest st1 with
          | none => none
          | some (st2, tail) => some (st2, evs.map (fun e => (t, e)) ++ tail)

/-- A dodge direction, the two non-`None` values of `state["dodging"]`. -/
inductive Dodge
  | left
  | right
deriving DecidableEq

/-- The dict returned by `_compute_hand_state`. -/
structure HandState where
  left_wrist : Option (ℚ × ℚ)
  right_wrist : Option (ℚ × ℚ)
  blocking : Bool
  dodging : Option Dodge
deriving DecidableEq

/-- The `for h in hands_data` loop of `_compute_hand_state`: read the wrist
(`landmarks[WRIST]`, raising on an empty list — modelled by `none`) and assign
it to the `left_wrist` slot when the lower-cased handedness is `"left"`, to the
`right_wrist` slot otherwise, each assignment overwriting the previous one. -/
def assignWrists (acc : Option (ℚ × ℚ) × Option (ℚ × ℚ)) :
    List HandData → Option (Option (ℚ × ℚ) × Option (ℚ × ℚ))
  | [] => some acc
  | h :: rest =>
      match h.landmarks[0]? with
      | none => none
      | some w =>
          if h.handedness.pyLower = "left" then
            assignWrists (some (w.x, w.y), acc.2) rest
          else
            assignWrists (acc.1, some (w.x, w.y)) rest

/-- The bottom half of `_compute_hand_state`: blocking and dodging from the
gathered wrists.  A wrist value is a 2-tuple and hence always truthy in
Python, so `if left and right` / `if left` test presence only. -/
def resolveState (l r : Option (ℚ × ℚ)) : HandState :=
  match l, r with
  | some lw, some rw =>
      let both_high := decide (lw.2 < (1:ℚ)/2) && decide (rw.2 < (1:ℚ)/2)
      let guard_pose := decide (|lw.1 - rw.1| < (2:ℚ)/5)
      { left_wrist := some lw, right_wrist := some rw,
        blocking := both_high && guard_pose,
        dodging :=
          if (lw.1 + rw.1) / 2 < 7/20 then some Dodge.left
          else if 13/20 < (lw.1 + rw.1) / 2 then some Dodge.right
          else none }
  | some lw, none =>
      { left_wrist := some lw, right_wrist := none, blocking := false,
        dodging :=
          if lw.1 < 7/20 then some Dodge.left
          else if 13/20 < lw.1 then some Dodge.right
          else none }
  | none, some rw =>
      { left_wrist := none, right_wrist := some rw, blocking := false,
        dodging :=
          if rw.1 < 7/20 then some Dodge.left
          else if 13/20 < rw.1 then some Dodge.right
          else none }
  | none, none =>
      { left_wrist := none, right_wrist := none, blocking := false,
        dodging := none }

/-- `_compute_hand_state`: gather the wrists, then resolve blocking/dodging. -/
def compute_hand_state (hands_data : List HandData) : Option HandState :=
  (assignWrists (none, none) hands_data).map (fun lr => resolveState lr.1 lr.2)

/-- C3: on a list of at least 21 landmarks, `is_fist` returns `false` whenever
the squared planar thumb-tip/pinky-tip span is below `0.05² = 1/400` (i.e. the
planar Euclidean distance is below 0.05); otherwise it returns `true` iff each
of the four non-thumb fingers has squared planar tip-to-wrist distance at most
`1.3` times the squared planar PIP-to-wrist distance; and on a list with fewer
than 21 landmarks the indexing failure yields `false` instead of an error. -/
theorem is_fist_characterization (lms : List Lm) :
    (∀ h : 21 ≤ lms.length,
      (((lms.get ⟨4, by omega⟩).x - (lms.get ⟨20, by omega⟩).x)^2 +
        ((lms.get ⟨4, by omega⟩).y - (lms.get ⟨20, by omega⟩).y)^2 < 1/400 →
        is_fist lms = false) ∧
      (1/400 ≤ ((lms.get ⟨4, by omega⟩).x - (lms.get ⟨20, by omega⟩).x)^2 +
        ((lms.get ⟨4, by omega⟩).y - (lms.get ⟨20, by omega⟩).y)^2 →
        (is_fist lms = true ↔
          (((lms.get ⟨8, by omega⟩).x - (lms.get ⟨0, by omega⟩).x)^2 +
            ((lms.get ⟨8, by omega⟩).y - (lms.get ⟨0, by omega⟩).y)^2 ≤
            (((lms.get ⟨6, by omega⟩).x - (lms.get ⟨0, by omega⟩).x)^2 +
              ((lms.get ⟨6, by omega⟩).y - (lms.get ⟨0, by omega⟩).y)^2) * (13/10)) ∧
          (((lms.get ⟨12, by omega⟩).x - (lms.get ⟨0, by omega⟩).x)^2 +
            ((lms.get ⟨12, by omega⟩).y - (lms.get ⟨0, by omega⟩).y)^2 ≤
            (((lms.get ⟨10, by omega⟩).x - (lms.get ⟨0, by omega⟩).x)^2 +
              ((lms.get ⟨10, by omega⟩).y - (lms.get ⟨0, by omega⟩).y)^2) * (13/10)) ∧
          (((lms.get ⟨16, by omega⟩).x - (lms.get ⟨0, by omega⟩).x)^2 +
            ((lms.get ⟨16, by omega⟩).y - (lms.get ⟨0, by omega⟩).y)^2 ≤
            (((lms.get ⟨14, by omega⟩).x - (lms.get ⟨0, by omega⟩).x)^2 +
              ((lms.get ⟨14, by omega⟩).y - (lms.get ⟨0, by omega⟩).y)^2) * (13/10)) ∧
          (((lms.get ⟨20, by omega⟩).x - (lms.get ⟨0, by omega⟩).x)^2 +
            ((lms.get ⟨20, by omega⟩).y - (lms.get ⟨0, by omega⟩).y)^2 ≤
            (((lms.get ⟨18, by omega⟩).x - (lms.get ⟨0, by omega⟩).x)^2 +
              ((lms.get ⟨18, by omega⟩).y - (lms.get ⟨0, by omega⟩).y)^2) * (13/10))))) ∧
    (lms.length < 21 → is_fist lms = false) := by
  constructor
  · intro h
    constructor
    · intro hspan
      simp only [is_fist, dif_pos h]
      rw [if_pos hspan]
    · intro hspan
      simp only [is_fist, dif_pos h]
      rw [if_neg (not_lt.mpr hspan)]
      simp [tip_closer_than_pip, and_assoc]
  · intro hlt
    simp only [is_fist]
    rw [dif_neg (by omega)]

theorem smoothGo_length (p : Option (List Lm)) :
    ∀ (lms : List Lm) (i : ℕ), (smoothGo p i lms).length = lms.length := by
  intro lms
  induction lms with
  | nil => intro i; rfl
  | cons lm rest ih => intro i; simp [smoothGo, ih]

theorem smoothGo_getElem? (p : Option (List Lm)) :
    ∀ (lms : List Lm) (i j : ℕ),
    (smoothGo p i lms)[j]? = (lms[j]?).map (fun lm => smoothStep p (i + j) lm) := by
  intro lms
  induction lms with
  | nil => intro i j; simp [smoothGo]
  | cons lm rest ih =>
      intro i j
      cases j with
      | zero => simp [smoothGo]
      | succ j' =>
          simp only [smoothGo, List.getElem?_cons_succ, ih]
          have : i + 1 + j' = i + (j' + 1) := by omega
          rw [this]

theorem smoothOneHand_getElem? (p : Option (List Lm)) (lms : List Lm) (i : ℕ) :
    (smoothOneHand p lms)[i]? = (lms[i]?).map (fun lm => smoothStep p i lm) := by
  have := smoothGo_getElem? p lms 0 i
  simpa [smoothOneHand] using this

theorem smoothOneHand_none (lms : List Lm) : smoothOneHand none lms = lms := by
  unfold smoothOneHand
  generalize 0 = i
  induction lms generalizing i with
  | nil => rfl
  | cons lm rest ih => simp [smoothGo, smoothStep, ih]

theorem smoothLoop_fst (prev : List (String × List Lm)) :
    ∀ (hands : List HandData) (acc : List HandData × List (String × List Lm) × List String),
    (smoothLoop prev acc hands).1 =
      acc.1 ++ hands.map (fun hd =>
        ⟨smoothOneHand (dget prev hd.handedness.pyLower) hd.landmarks, hd.handedness⟩) := by
  intro hands
  induction hands with
  | nil => intro acc; simp [smoothLoop]
  | cons hd rest ih => intro acc; simp [smoothLoop, ih]

theorem smoothLoop_seen (prev : List (String × List Lm)) :
    ∀ (hands : List HandData) (acc : List HandData × List (String × List Lm) × List String),
    (smoothLoop prev acc hands).2.2 =
      acc.2.2 ++ hands.map (fun hd => hd.handedness.pyLower) := by
  intro hands
  induction hands with
  | nil => intro acc; simp [smoothLoop]
  | cons hd rest ih => intro acc; simp [smoothLoop, ih]

theorem smoothLoop_dget_none (prev : List (String × List Lm)) :
    ∀ (hands : List HandData) (acc : List HandData × List (String × List Lm) × List String)
      (k : String),
    dget (smoothLoop prev acc hands).2.1 k = none ↔
      dget acc.2.1 k = none ∧ k ∉ hands.map (fun hd => hd.handedness.pyLower) := by
  intro hands
  induction hands with
  | nil => intro acc k; simp [smoothLoop]
  | cons hd rest ih =>
      intro acc k
      simp only [smoothLoop, ih, dget_dinsert, List.map_cons, List.mem_cons]
      by_cases hk : k = hd.handedness.pyLower
      · simp [hk]
      · simp [hk]
      
theorem dget_filter_contains (l : List (String × α)) (seen : List String) (k : String) :
    dget (l.filter (fun kv => seen.contains kv.1)) k =
      if k ∈ seen then dget l k else none := by
  induction l with
  | nil => simp [dget]
  | cons kv rest ih =>
      rcases kv with ⟨a, b⟩
      simp only [List.contains_eq_any_beq] at ih ⊢
      by_cases hm : a ∈ seen
      · have hc : seen.any (fun x => a == x) = true := by
          simp [List.any_eq_true]
          exact hm
        by_cases hak : a = k
        · subst hak
          simp [List.filter_cons, hc, dget_cons, ih, hm]
        · simp [List.filter_cons, hc, dget_cons, hak, ih]
      · have hc : ¬ seen.any (fun x => a == x) = true := by
          simp [List.any_eq_true]
          exact hm
        by_cases hak : a = k
        · subst hak
          simp [List.filter_cons, hc, dget_cons, ih, hm]
        · simp [List.filter_cons, hc, dget_cons, hak, ih]

/-- C4: the smoother's output list has the same length and order as the input,
each output's handedness equals the corresponding input's handedness, and per
landmark index and per axis independently the smoothed value is
`0.35·raw + 0.65·previous_smoothed` when a prior entry exists for the
(lower-cased) hand label and the index is within the prior's length, and the
raw value otherwise. -/
theorem smooth_landmarks_pointwise (hands : List HandData)
    (prev : List (String × List Lm)) :
    (smooth_landmarks hands prev).1.length = hands.length ∧
    ∀ (k : ℕ) (hd : HandData), hands[k]? = some hd →
      ∃ out, (smooth_landmarks hands prev).1[k]? = some out ∧
        out.handedness = hd.handedness ∧
        out.landmarks.length = hd.landmarks.length ∧
        ∀ (i : ℕ) (lm : Lm), hd.landmarks[i]? = some lm →
          (∀ p pv, dget prev hd.handedness.pyLower = some p → p[i]? = some pv →
            out.landmarks[i]? = some
              ⟨35/100 * lm.x + 65/100 * pv.x,
               35/100 * lm.y + 65/100 * pv.y,
               35/100 * lm.z + 65/100 * pv.z⟩) ∧
          (∀ p, dget prev hd.handedness.pyLower = some p → p[i]? = none →
            out.landmarks[i]? = some lm) ∧
          (dget prev hd.handedness.pyLower = none →
            out.landmarks[i]? = some lm) := by
  have hfst : (smooth_landmarks hands prev).1 =
      hands.map (fun hd =>
        ⟨smoothOneHand (dget prev hd.handedness.pyLower) hd.landmarks,
         hd.handedness⟩) := by
    simp [smooth_landmarks, smoothLoop_fst]
  constructor
  · rw [hfst]; simp
  · intro k hd hk
    refine ⟨⟨smoothOneHand (dget prev hd.handedness.pyLower) hd.landmarks,
      hd.handedness⟩, ?_, rfl, smoothGo_length _ _ _, ?_⟩
    · rw [hfst, List.getElem?_map, hk]
      rfl
    · intro i lm hi
      refine ⟨?_, ?_, ?_⟩
      · intro p pv hprev hp
        simp only [smoothOneHand_getElem?, hi, Option.map_some']
        simp only [smoothStep, hprev, hp, blend, LANDMARK_SMOOTH_ALPHA]
        norm_num
      · intro p hprev hp
        simp only [smoothOneHand_getElem?, hi, Option.map_some']
        simp only [smoothStep, hprev, hp]
      · intro hprev
        simp only [smoothOneHand_getElem?, hi, Option.map_some']
        simp only [smoothStep, hprev]

/-- C5: after a frame is smoothed, a hand label has an entry in the returned
smoothing state exactly when it occurs (lower-cased) among the frame's
observations; labels absent from the frame are purged. -/
theorem smooth_state_keys (hands : List HandData)
    (prev : List (String × List Lm)) (k : String) :
    (dget (smooth_landmarks hands prev).2 k).isSome = true ↔
      k ∈ hands.map (fun hd => hd.handedness.pyLower) := by
  have hseen : (smoothLoop prev ([], [], []) hands).2.2 =
      hands.map (fun hd => hd.handedness.pyLower) := by
    simpa using smoothLoop_seen prev hands ([], [], [])
  have hsnd : (smooth_landmarks hands prev).2 =
      (smoothLoop prev ([], [], []) hands).2.1.filter
        (fun kv => ((smoothLoop prev ([], [], []) hands).2.2).contains kv.1) := rfl
  rw [hsnd]
  simp only [hseen]
  rw [dget_filter_contains]
  by_cases hm : k ∈ hands.map (fun hd => hd.handedness.pyLower)
  · have : ¬ dget (smoothLoop prev ([], [], []) hands).2.1 k = none := by
      rw [smoothLoop_dget_none]
      intro ⟨_, hnot⟩
      exact hnot hm
    simp only [if_pos hm]
    constructor
    · intro _; exact hm
    · intro _
      cases hd : dget (smoothLoop prev ([], [], []) hands).2.1 k with
      | none => exact absurd hd this
      | some v => simp
  · simp [hm]

theorem blend_self (lm : Lm) : blend lm lm = lm := by
  rcases lm with ⟨x, y, z⟩
  simp only [blend, LANDMARK_SMOOTH_ALPHA, Lm.mk.injEq]
  refine ⟨by ring, by ring, by ring⟩

theorem smoothOneHand_self (lms : List Lm) : smoothOneHand (some lms) lms = lms := by
  apply List.ext_getElem?
  intro i
  rw [smoothOneHand_getElem?]
  cases hi : lms[i]? with
  | none => rfl
  | some lm => simp [smoothStep, hi, blend_self]

/-- C9: with no prior state the smoother returns the input unchanged (N = 1);
when a prior entry is present, the per-axis gap between the smoothed output and
the raw input is exactly `1 - α = 0.65` times the gap between the prior value
and the raw input (so feeding the same landmarks repeatedly shrinks the gap by
the factor 0.65 each frame); and the input is a fixed point of the smoothing
step. -/
theorem smoothing_convergence :
    (∀ hands : List HandData, (smooth_landmarks hands []).1 = hands) ∧
    (∀ (hd : HandData) (prev : List (String × List Lm)) (p : List Lm) (i : ℕ)
      (lm pv : Lm),
      dget prev hd.handedness.pyLower = some p →
      hd.landmarks[i]? = some lm → p[i]? = some pv →
      ∃ out, (smooth_landmarks [hd] prev).1 = [out] ∧
        out.handedness = hd.handedness ∧
        ∃ sm, out.landmarks[i]? = some sm ∧
          sm.x - lm.x = 65/100 * (pv.x - lm.x) ∧
          sm.y - lm.y = 65/100 * (pv.y - lm.y) ∧
          sm.z - lm.z = 65/100 * (pv.z - lm.z)) ∧
    (∀ hd : HandData,
      (smooth_landmarks [hd] [(hd.handedness.pyLower, hd.landmarks)]).1 = [hd]) := by
  refine ⟨?_, ?_, ?_⟩
  · intro hands
    have hfst : (smooth_landmarks hands []).1 =
        hands.map (fun hd =>
          ⟨smoothOneHand (dget [] hd.handedness.pyLower) hd.landmarks,
           hd.handedness⟩) := by
      simp [smooth_landmarks, smoothLoop_fst]
    rw [hfst]
    have : ∀ hd : HandData,
        (⟨smoothOneHand (dget [] hd.handedness.pyLower) hd.landmarks,
          hd.handedness⟩ : HandData) = hd := by
      intro hd
      rw [dget_nil, smoothOneHand_none]
    simp only [this, List.map_id']
  · intro hd prev p i lm pv hprev hi hp
    have hfst : (smooth_landmarks [hd] prev).1 =
        [⟨smoothOneHand (dget prev hd.handedness.pyLower) hd.landmarks,
          hd.handedness⟩] := by
      simp [smooth_landmarks, smoothLoop_fst]
    refine ⟨_, hfst, rfl, blend lm pv, ?_, ?_, ?_, ?_⟩
    · rw [smoothOneHand_getElem?, hi, Option.map_some']
      simp [smoothStep, hprev, hp]
    · simp only [blend, LANDMARK_SMOOTH_ALPHA]; ring
    · simp only [blend, LANDMARK_SMOOTH_ALPHA]; ring
    · simp only [blend, LANDMARK_SMOOTH_ALPHA]; ring
  · intro hd
    have hfst : (smooth_landmarks [hd] [(hd.handedness.pyLower, hd.landmarks)]).1 =
        [⟨smoothOneHand
            (dget [(hd.handedness.pyLower, hd.landmarks)] hd.handedness.pyLower)
            hd.landmarks,
          hd.handedness⟩] := by
      simp [smooth_landmarks, smoothLoop_fst]
    rw [hfst]
    rw [show dget [(hd.handedness.pyLower, hd.landmarks)] hd.handedness.pyLower =
        some hd.landmarks by simp [dget_cons]]
    rw [smoothOneHand_self]

theorem resolveState_left_wrist (l r : Option (ℚ × ℚ)) :
    (resolveState l r).left_wrist = l := by
  cases l <;> cases r <;> rfl

theorem resolveState_right_wrist (l r : Option (ℚ × ℚ)) :
    (resolveState l r).right_wrist = r := by
  cases l <;> cases r <;> rfl

theorem assignWrists_append (xs ys : List HandData) :
    ∀ acc, assignWrists acc (xs ++ ys) =
      match assignWrists acc xs with
      | none => none
      | some a => assignWrists a ys := by
  induction xs with
  | nil => intro acc; rfl
  | cons h rest ih =>
      intro acc
      simp only [List.cons_append, assignWrists]
      cases h.landmarks[0]? with
      | none => rfl
      | some w =>
          by_cases hh : h.handedness.pyLower = "left" <;> simp [hh, ih]

/-- C6: with both wrists recorded the state blocks iff both wrist
y-coordinates are below 0.50 and the wrists' x-distance is below 0.4, and
dodges by the average x against the 0.35/0.65 cut-points; with exactly one
wrist recorded it never blocks and dodges by that wrist's x against the same
cut-points; with no wrists it neither blocks nor dodges. -/
theorem compute_hand_state_characterization (hands : List HandData)
    (st : HandState) (h : compute_hand_state hands = some st) :
    (∀ lw rw, st.left_wrist = some lw → st.right_wrist = some rw →
      (st.blocking = true ↔ (lw.2 < 1/2 ∧ rw.2 < 1/2 ∧ |lw.1 - rw.1| < 2/5)) ∧
      st.dodging = (if (lw.1 + rw.1) / 2 < 7/20 then some Dodge.left
        else if 13/20 < (lw.1 + rw.1) / 2 then some Dodge.right else none)) ∧
    (∀ lw, st.left_wrist = some lw → st.right_wrist = none →
      st.blocking = false ∧
      st.dodging = (if lw.1 < 7/20 then some Dodge.left
        else if 13/20 < lw.1 then some Dodge.right else none)) ∧
    (∀ rw, st.left_wrist = none → st.right_wrist = some rw →
      st.blocking = false ∧
      st.dodging = (if rw.1 < 7/20 then some Dodge.left
        else if 13/20 < rw.1 then some Dodge.right else none)) ∧
    (st.left_wrist = none → st.right_wrist = none →
      st.blocking = false ∧ st.dodging = none) := by
  unfold compute_hand_state at h
  cases ha : assignWrists (none, none) hands with
  | none => rw [ha] at h; cases h
  | some lr =>
      rw [ha, Option.map_some'] at h
      injection h with h
      subst h
      rcases lr with ⟨l, r⟩
      refine ⟨?_, ?_, ?_, ?_⟩
      · intro lw rw hl hr
        rw [resolveState_left_wrist] at hl
        rw [resolveState_right_wrist] at hr
        subst hl; subst hr
        constructor
        · simp [resolveState, and_assoc]
        · rfl
      · intro lw hl hr
        rw [resolveState_left_wrist] at hl
        rw [resolveState_right_wrist] at hr
        subst hl; subst hr
        exact ⟨rfl, rfl⟩
      · intro rw' hl hr
        rw [resolveState_left_wrist] at hl
        rw [resolveState_right_wrist] at hr
        subst hl; subst hr
        exact ⟨rfl, rfl⟩
      · intro hl hr
        rw [resolveState_left_wrist] at hl
        rw [resolveState_right_wrist] at hr
        subst hl; subst hr
        exact ⟨rfl, rfl⟩

/-- Modelled from the spec's words for the C7 claim only: the "mirrored" dodge
direction — "left" becomes "right" and vice versa, none stays none.  This is a
spec-side notion used to state the claim, not part of the source. -/
def specMirrorDodge : Option Dodge → Option Dodge
  | some Dodge.left => some Dodge.right
  | some Dodge.right => some Dodge.left
  | none => none

/-- C7 counterexample: with the left wrist at `(0.1, 0.9)` and the right wrist
at `(0.2, 0.9)`, the resolver dodges "left" (average x `0.15 < 0.35`); after
swapping the two wrists' coordinates together with their labels the average x
is unchanged, so the resolver still dodges "left" — not the mirrored "right"
the claim requires.  (Blocking is indeed unchanged; the dodge part of the
claim is what fails.) -/
theorem swap_mirror_cex :
    (compute_hand_state
        [⟨[⟨1/10, 9/10, 0⟩], "Left"⟩, ⟨[⟨2/10, 9/10, 0⟩], "Right"⟩]).map
      (fun s => s.dodging) = some (some Dodge.left) ∧
    (compute_hand_state
        [⟨[⟨2/10, 9/10, 0⟩], "Left"⟩, ⟨[⟨1/10, 9/10, 0⟩], "Right"⟩]).map
      (fun s => s.dodging) = some (some Dodge.left) ∧
    specMirrorDodge (some Dodge.left) ≠ some Dodge.left := by
  refine ⟨by with_unfolding_all rfl, by with_unfolding_all rfl, ?_⟩
  simp [specMirrorDodge]

/-- C7 (amended): swapping the left and right wrist coordinates together with
their handedness labels yields a pose state whose dodge direction is
*unchanged* (the dodge is derived from the average of the two x-coordinates,
which is symmetric under the swap) and whose blocking flag is unchanged. -/
theorem swap_preserves_state (lx ly lz rx ry rz : ℚ) (s1 s2 : HandState)
    (h1 : compute_hand_state
      [⟨[⟨lx, ly, lz⟩], "Left"⟩, ⟨[⟨rx, ry, rz⟩], "Right"⟩] = some s1)
    (h2 : compute_hand_state
      [⟨[⟨rx, ry, rz⟩], "Left"⟩, ⟨[⟨lx, ly, lz⟩], "Right"⟩] = some s2) :
    s2.dodging = s1.dodging ∧ s2.blocking = s1.blocking := by
  have e1 : compute_hand_state
      [⟨[⟨lx, ly, lz⟩], "Left"⟩, ⟨[⟨rx, ry, rz⟩], "Right"⟩]
      = some (resolveState (some (lx, ly)) (some (rx, ry))) := rfl
  have e2 : compute_hand_state
      [⟨[⟨rx, ry, rz⟩], "Left"⟩, ⟨[⟨lx, ly, lz⟩], "Right"⟩]
      = some (resolveState (some (rx, ry)) (some (lx, ly))) := rfl
  rw [e1] at h1
  rw [e2] at h2
  injection h1 with h1
  injection h2 with h2
  subst h1; subst h2
  constructor
  · simp only [resolveState]
    rw [add_comm rx lx]
  · simp only [resolveState]
    rw [Bool.and_comm (decide (ry < (1:ℚ)/2)), abs_sub_comm rx lx]

/-- C7-amended witness: a concrete instantiation of `swap_preserves_state` at
the counterexample's wrists. -/
theorem swap_preserves_state_witness :
    (resolveState (some ((2:ℚ)/10, (9:ℚ)/10)) (some ((1:ℚ)/10, (9:ℚ)/10))).dodging =
      (resolveState (some ((1:ℚ)/10, (9:ℚ)/10)) (some ((2:ℚ)/10, (9:ℚ)/10))).dodging ∧
    (resolveState (some ((2:ℚ)/10, (9:ℚ)/10)) (some ((1:ℚ)/10, (9:ℚ)/10))).blocking =
      (resolveState (some ((1:ℚ)/10, (9:ℚ)/10)) (some ((2:ℚ)/10, (9:ℚ)/10))).blocking :=
  swap_preserves_state (1/10) (9/10) 0 (2/10) (9/10) 0 _ _ rfl rfl

/-- C10: in the pose-state resolver every observation whose lower-cased
handedness is anything but `"left"` is recorded as the right wrist, and a later
observation mapping to an already-written slot overwrites it (last one wins):
appending an observation `h` to a frame overwrites exactly the slot `h` maps
to and leaves the other slot as the shorter frame computed it. -/
theorem right_slot_and_last_wins (hands : List HandData) (h : HandData) (w : Lm)
    (s s' : HandState)
    (hw : h.landmarks[0]? = some w)
    (h1 : compute_hand_state hands = some s)
    (h2 : compute_hand_state (hands ++ [h]) = some s') :
    (h.handedness.pyLower ≠ "left" →
      s'.right_wrist = some (w.x, w.y) ∧ s'.left_wrist = s.left_wrist) ∧
    (h.handedness.pyLower = "left" →
      s'.left_wrist = some (w.x, w.y) ∧ s'.right_wrist = s.right_wrist) := by
  unfold compute_hand_state at h1 h2
  rw [assignWrists_append] at h2
  cases ha : assignWrists (none, none) hands with
  | none => rw [ha] at h1; cases h1
  | some lr =>
      rw [ha, Option.map_some'] at h1
      injection h1 with h1
      rw [ha] at h2
      simp only [assignWrists, hw] at h2
      by_cases hl : h.handedness.pyLower = "left"
      · rw [if_pos hl] at h2
        simp only [assignWrists, Option.map_some'] at h2
        injection h2 with h2
        subst h1; subst h2
        constructor
        · intro hne; exact absurd hl hne
        · intro _
          simp [resolveState_left_wrist, resolveState_right_wrist]
      · rw [if_neg hl] at h2
        simp only [assignWrists, Option.map_some'] at h2
        injection h2 with h2
        subst h1; subst h2
        constructor
        · intro _
          simp [resolveState_left_wrist, resolveState_right_wrist]
        · intro hle; exact absurd hle hl

theorem avg_z_eq_none (lms : List Lm) : avg_z lms = none ↔ lms = [] := by
  cases lms <;> simp [avg_z]

theorem hand_size_sq_eq_none (lms : List Lm) :
    hand_size_sq lms = none ↔ lms = [] := by
  cases lms <;> simp [hand_size_sq]

/-- The constructor defaults of `PunchDetector`:
`velocity_threshold=0.15`, `cooldown_ms=300`, `history_frames=5`. -/
def defaultConfig : Config := ⟨3/20, 3/10, 5⟩

theorem update_and_detect_eq (cfg : Config) (sizeOf : List Lm → ℚ)
    (handedness : String) (lms : List Lm) (t : ℚ) (st : DetectorState)
    (q z : ℚ) (hq : hand_size_sq lms = some q) (hz : avg_z lms = some z) :
    update_and_detect cfg sizeOf handedness lms t st =
      some (detectCore cfg handedness.pyLower lms t
        (dequeAppend cfg.historyFrames
          ((dget st.history handedness.pyLower).getD [])
          ⟨t, sizeOf lms, z⟩)
        ⟨dinsert st.history handedness.pyLower
          (dequeAppend cfg.historyFrames
            ((dget st.history handedness.pyLower).getD [])
            ⟨t, sizeOf lms, z⟩),
         st.lastPunch⟩) := by
  simp only [update_and_detect, hq, hz]

/-- C1: under the gates of `_update_and_detect` — closed fist, elapsed
cooldown, a post-append window `hist` of at least two samples, and positive
time span from the window's oldest sample `a` to its newest sample `b` — a
punch event is emitted iff the size velocity strictly exceeds the configured
threshold or the z velocity is strictly below `-0.35`; an emitted event
carries the hand's lower-cased label and strength
`min 1 (|size_velocity| / (2·velocity_threshold))`, and records the hand's
last-punch timestamp as `t`. -/
theorem punch_emission_characterization
    (cfg : Config) (sizeOf : List Lm → ℚ) (handedness : String) (lms : List Lm)
    (t z : ℚ) (st st' : DetectorState) (ev : Option Event)
    (hist : List Sample) (a b : Sample)
    (hz : avg_z lms = some z)
    (hhist : dequeAppend cfg.historyFrames
      ((dget st.history handedness.pyLower).getD []) ⟨t, sizeOf lms, z⟩ = hist)
    (hrun : update_and_detect cfg sizeOf handedness lms t st = some (st', ev))
    (hfist : is_fist lms = true)
    (hcool : cfg.cooldownSec ≤ t - ((dget st.lastPunch handedness.pyLower).getD (-10)))
    (hlen : 2 ≤ hist.length)
    (hhead : hist.head? = some a) (hlast : hist.getLast? = some b)
    (hdt : 0 < b.t - a.t) :
    ((∃ e, ev = some e) ↔
      (cfg.velocityThreshold < (b.size - a.size) / (b.t - a.t) ∨
        (b.z - a.z) / (b.t - a.t) < -(35/100))) ∧
    (∀ e, ev = some e →
      e.hand = handedness.pyLower ∧
      e.strength = min 1 (|(b.size - a.size) / (b.t - a.t)| /
        (cfg.velocityThreshold * 2)) ∧
      dget st'.lastPunch handedness.pyLower = some t) := by
  have hne : lms ≠ [] := by
    intro h0
    rw [h0] at hz
    simp [avg_z] at hz
  obtain ⟨q, hq⟩ : ∃ q, hand_size_sq lms = some q := by
    cases hs : hand_size_sq lms with
    | none => exact absurd ((hand_size_sq_eq_none lms).mp hs) hne
    | some q => exact ⟨q, rfl⟩
  rw [update_and_detect_eq cfg sizeOf handedness lms t st q z hq hz] at hrun
  rw [hhist] at hrun
  injection hrun with hrun
  simp only [detectCore] at hrun
  rw [if_neg (by rw [hfist]; exact fun hff => Bool.noConfusion hff)] at hrun
  rw [if_neg (not_lt.mpr hcool)] at hrun
  rw [if_neg (by omega)] at hrun
  rw [hhead, hlast] at hrun
  simp only [] at hrun
  rw [if_neg (not_le.mpr hdt)] at hrun
  by_cases htc : cfg.velocityThreshold < (b.size - a.size) / (b.t - a.t) ∨
      (b.z - a.z) / (b.t - a.t) < -(35/100)
  · rw [if_pos htc] at hrun
    rw [Prod.mk.injEq] at hrun
    obtain ⟨hst, hev⟩ := hrun
    constructor
    · constructor
      · intro _; exact htc
      · intro _; exact ⟨_, hev.symm⟩
    · intro e he
      rw [← hev] at he
      injection he with he
      subst he
      refine ⟨rfl, rfl, ?_⟩
      rw [← hst]
      show dget (dinsert st.lastPunch handedness.pyLower t) handedness.pyLower = some t
      rw [dget_dinsert]
      exact if_pos rfl
  · rw [if_neg htc] at hrun
    rw [Prod.mk.injEq] at hrun
    obtain ⟨hst, hev⟩ := hrun
    constructor
    · constructor
      · intro ⟨e, he⟩
        rw [← hev] at he
        exact Option.noConfusion he
      · intro hc; exact absurd hc htc
    · intro e he
      rw [← hev] at he
      exact Option.noConfusion he

theorem is_fist_of_short (lms : List Lm) (h : lms.length < 21) :
    is_fist lms = false := by
  simp only [is_fist]
  rw [dif_neg (by omega)]

/-- C8 counterexample: a hand observation with an *empty* landmark list —
certainly a "malformed or incomplete" list in the claim's sense — does not
become a classification miss: `_hand_size` raises `ValueError` (`max` of an
empty sequence) and `_avg_z` would raise `ZeroDivisionError`, before the
protected `_is_fist` is ever reached, so per-frame processing propagates an
error (modelled `none`) instead of continuing. -/
theorem empty_landmarks_error_cex :
    update_and_detect defaultConfig (fun _ => 0) "Left" [] 0 initState = none ∧
    process_hands defaultConfig (fun _ => 0) [⟨[], "Left"⟩] 0 initState = none :=
  ⟨rfl, rfl⟩

/-- C8 (amended): for a hand observation whose landmark list is non-empty but
incomplete (fewer than 21 landmarks), processing is a classification miss and
not a fault: the fist predicate returns false, no punch event is emitted, and
per-frame processing continues without an error; an empty landmark list,
however, raises inside `_hand_size`/`_avg_z` (which run before the protected
fist check) and the error propagates. -/
theorem malformed_nonempty_is_miss (cfg : Config) (sizeOf : List Lm → ℚ)
    (handedness : String) (lms : List Lm) (t : ℚ) (st : DetectorState)
    (hne : lms ≠ []) (hlen : lms.length < 21) :
    is_fist lms = false ∧
    ∃ st', update_and_detect cfg sizeOf handedness lms t st = some (st', none) ∧
      process_hands cfg sizeOf [⟨lms, handedness⟩] t st = some (st', []) := by
  have hfist := is_fist_of_short lms hlen
  obtain ⟨z, hz⟩ : ∃ z, avg_z lms = some z := by
    cases hs : avg_z lms with
    | none => exact absurd ((avg_z_eq_none lms).mp hs) hne
    | some z => exact ⟨z, rfl⟩
  obtain ⟨q, hq⟩ : ∃ q, hand_size_sq lms = some q := by
    cases hs : hand_size_sq lms with
    | none => exact absurd ((hand_size_sq_eq_none lms).mp hs) hne
    | some q => exact ⟨q, rfl⟩
  have hupd := update_and_detect_eq cfg sizeOf handedness lms t st q z hq hz
  have hcore : detectCore cfg handedness.pyLower lms t
      (dequeAppend cfg.historyFrames
        ((dget st.history handedness.pyLower).getD [])
        ⟨t, sizeOf lms, z⟩)
      ⟨dinsert st.history handedness.pyLower
        (dequeAppend cfg.historyFrames
          ((dget st.history handedness.pyLower).getD [])
          ⟨t, sizeOf lms, z⟩),
       st.lastPunch⟩ =
      (⟨dinsert st.history handedness.pyLower
        (dequeAppend cfg.historyFrames
          ((dget st.history handedness.pyLower).getD [])
          ⟨t, sizeOf lms, z⟩),
       st.lastPunch⟩, none) := by
    simp only [detectCore]
    rw [if_pos hfist]
  refine ⟨hfist,
    ⟨⟨dinsert st.history handedness.pyLower
        (dequeAppend cfg.historyFrames
          ((dget st.history handedness.pyLower).getD [])
          ⟨t, sizeOf lms, z⟩),
      st.lastPunch⟩, ?_, ?_⟩⟩
  · rw [hupd, hcore]
  · simp only [process_hands, hupd, hcore, Option.toList]
    rfl

/-- Separation of a (chronological) event trace: any later event for the same
hand label is at least `c` seconds after any earlier one. -/
def Separated (c : ℚ) (evs : List (ℚ × Event)) : Prop :=
  evs.Pairwise (fun x y => x.2.hand = y.2.hand → c ≤ y.1 - x.1)

/-- Invariant carried through a detector run: the trace emitted so far is
separated, every emitted event's hand has a last-punch entry at least as late
as the event, and every last-punch entry is at most the current time. -/
def DetInv (c : ℚ) (st : DetectorState) (evs : List (ℚ × Event)) (tcur : ℚ) :
    Prop :=
  Separated c evs ∧
  (∀ te ∈ evs, ∃ T, dget st.lastPunch te.2.hand = some T ∧ te.1 ≤ T) ∧
  (∀ hid T, dget st.lastPunch hid = some T → T ≤ tcur)

theorem detectCore_lastPunch (cfg : Config) (hid : String) (lms : List Lm)
    (t : ℚ) (h : List Sample) (st1 : DetectorState) :
    ((detectCore cfg hid lms t h st1).2 = none ∧
      (detectCore cfg hid lms t h st1).1.lastPunch = st1.lastPunch) ∨
    (∃ e, (detectCore cfg hid lms t h st1).2 = some e ∧ e.hand = hid ∧
      (detectCore cfg hid lms t h st1).1.lastPunch = dinsert st1.lastPunch hid t ∧
      cfg.cooldownSec ≤ t - ((dget st1.lastPunch hid).getD (-10))) := by
  simp only [detectCore]
  split
  · exact Or.inl ⟨rfl, rfl⟩
  split
  · exact Or.inl ⟨rfl, rfl⟩
  next hcool =>
    split
    · exact Or.inl ⟨rfl, rfl⟩
    split
    · next a b _ _ =>
        split
        · exact Or.inl ⟨rfl, rfl⟩
        split
        · exact Or.inr ⟨_, rfl, rfl, rfl, not_lt.mp hcool⟩
        · exact Or.inl ⟨rfl, rfl⟩
    · exact Or.inl ⟨rfl, rfl⟩

theorem update_and_detect_lastPunch (cfg : Config) (sizeOf : List Lm → ℚ)
    (handedness : String) (lms : List Lm) (t : ℚ) (st st' : DetectorState)
    (ev : Option Event)
    (hrun : update_and_detect cfg sizeOf handedness lms t st = some (st', ev)) :
    (ev = none ∧ st'.lastPunch = st.lastPunch) ∨
    (∃ e, ev = some e ∧ e.hand = handedness.pyLower ∧
      st'.lastPunch = dinsert st.lastPunch handedness.pyLower t ∧
      cfg.cooldownSec ≤
        t - ((dget st.lastPunch handedness.pyLower).getD (-10))) := by
  unfold update_and_detect at hrun
  cases hs : hand_size_sq lms with
  | none => rw [hs] at hrun; cases hrun
  | some q =>
      cases hz : avg_z lms with
      | none => rw [hs, hz] at hrun; cases hrun
      | some z =>
          rw [hs, hz] at hrun
          injection hrun with hrun
          rcases detectCore_lastPunch cfg handedness.pyLower lms t
            (dequeAppend cfg.historyFrames
              ((dget st.history handedness.pyLower).getD [])
              ⟨t, sizeOf lms, z⟩)
            ⟨dinsert st.history handedness.pyLower
              (dequeAppend cfg.historyFrames
                ((dget st.history handedness.pyLower).getD [])
                ⟨t, sizeOf lms, z⟩),
             st.lastPunch⟩ with hc | hc
          · rw [hrun] at hc
            dsimp only at hc
            exact Or.inl hc
          · rw [hrun] at hc
            dsimp only at hc
            exact Or.inr hc

theorem update_preserves_inv (cfg : Config) (sizeOf : List Lm → ℚ)
    (handedness : String) (lms : List Lm) (t tcur : ℚ)
    (st st' : DetectorState) (ev : Option Event) (evs : List (ℚ × Event))
    (hinv : DetInv cfg.cooldownSec st evs tcur) (ht : tcur ≤ t)
    (hrun : update_and_detect cfg sizeOf handedness lms t st = some (st', ev)) :
    DetInv cfg.cooldownSec st'
      (evs ++ ev.toList.map (fun e => (t, e))) t := by
  obtain ⟨hsep, hcov, hbnd⟩ := hinv
  rcases update_and_detect_lastPunch cfg sizeOf handedness lms t st st' ev hrun
    with ⟨hev, hlp⟩ | ⟨e, hev, hhand, hlp, hc⟩
  · subst hev
    simp only [Option.toList, List.map_nil, List.append_nil]
    refine ⟨hsep, ?_, ?_⟩
    · intro te hte
      rw [hlp]
      exact hcov te hte
    · intro hid T hT
      rw [hlp] at hT
      exact le_trans (hbnd hid T hT) ht
  · subst hev
    simp only [Option.toList, List.map_cons, List.map_nil]
    have hd_new : dget st'.lastPunch e.hand = some t := by
      rw [hlp, ← hhand, dget_dinsert]
      exact if_pos rfl
    refine ⟨?_, ?_, ?_⟩
    · rw [Separated, List.pairwise_append]
      refine ⟨hsep, List.pairwise_singleton _ _, ?_⟩
      intro x hx y hy hhands
      rw [List.mem_singleton] at hy
      subst hy
      obtain ⟨T, hT, hle⟩ := hcov x hx
      rw [hhands, hhand] at hT
      have : cfg.cooldownSec ≤ t - T := by
        rw [hT] at hc
        simpa using hc
      have hTt : T ≤ tcur := by
        have := hbnd (handedness.pyLower) T hT
        exact this
      have : cfg.cooldownSec ≤ t - x.1 := by
        have hx1 : x.1 ≤ T := hle
        linarith
      simpa using this
    · intro te hte
      rw [List.mem_append] at hte
      rcases hte with hte | hte
      · obtain ⟨T, hT, hle⟩ := hcov te hte
        by_cases hh : te.2.hand = e.hand
        · refine ⟨t, by rw [hh]; exact hd_new, ?_⟩
          have := hbnd te.2.hand T hT
          linarith
        · refine ⟨T, ?_, hle⟩
          rw [hlp, dget_dinsert, if_neg (by rw [← hhand]; exact hh)]
          exact hT
      · rw [List.mem_singleton] at hte
        subst hte
        exact ⟨t, hd_new, le_refl t⟩
    · intro hid T hT
      rw [hlp, dget_dinsert] at hT
      by_cases hh : hid = handedness.pyLower
      · rw [if_pos hh] at hT
        injection hT with hT
        rw [← hT]
      · rw [if_neg hh] at hT
        exact le_trans (hbnd hid T hT) ht

theorem process_hands_inv (cfg : Config) (sizeOf : List Lm → ℚ) :
    ∀ (hands : List HandData) (t tcur : ℚ) (st st' : DetectorState)
      (newEvs : List Event) (evs : List (ℚ × Event)),
    DetInv cfg.cooldownSec st evs tcur → tcur ≤ t →
    process_hands cfg sizeOf hands t st = some (st', newEvs) →
    DetInv cfg.cooldownSec st' (evs ++ newEvs.map (fun e => (t, e))) t := by
  intro hands
  induction hands with
  | nil =>
      intro t tcur st st' newEvs evs hinv ht hrun
      simp only [process_hands] at hrun
      injection hrun with hrun
      rw [Prod.mk.injEq] at hrun
      obtain ⟨h1, h2⟩ := hrun
      subst h1; subst h2
      obtain ⟨hsep, hcov, hbnd⟩ := hinv
      simp only [List.map_nil, List.append_nil]
      exact ⟨hsep, hcov, fun hid T hT => le_trans (hbnd hid T hT) ht⟩
  | cons h rest ih =>
      intro t tcur st st' newEvs evs hinv ht hrun
      simp only [process_hands] at hrun
      cases hu : update_and_detect cfg sizeOf h.handedness h.landmarks t st with
      | none => rw [hu] at hrun; cases hrun
      | some p =>
          rcases p with ⟨st1, ev⟩
          rw [hu] at hrun
          dsimp only at hrun
          cases hp : process_hands cfg sizeOf rest t st1 with
          | none => rw [hp] at hrun; cases hrun
          | some p2 =>
              rcases p2 with ⟨st2, evs2⟩
              rw [hp] at hrun
              injection hrun with hrun
              rw [Prod.mk.injEq] at hrun
              obtain ⟨h1, h2⟩ := hrun
              subst h1; subst h2
              have inv1 := update_preserves_inv cfg sizeOf h.handedness
                h.landmarks t tcur st st1 ev evs hinv ht hu
              have inv2 := ih t t st1 st2 evs2
                (evs ++ ev.toList.map (fun e => (t, e))) inv1 (le_refl t) hp
              rw [List.map_append, ← List.append_assoc]
              exact inv2

theorem runFrames_inv (cfg : Config) (sizeOf : List Lm → ℚ) :
    ∀ (frames : List (List HandData × ℚ)) (st st2 : DetectorState)
      (tail evs : List (ℚ × Event)) (tcur : ℚ),
    DetInv cfg.cooldownSec st evs tcur →
    (∀ f ∈ frames, tcur ≤ f.2) →
    (frames.map Prod.snd).Pairwise (· ≤ ·) →
    runFrames cfg sizeOf frames st = some (st2, tail) →
    Separated cfg.cooldownSec (evs ++ tail) := by
  intro frames
  induction frames with
  | nil =>
      intro st st2 tail evs tcur hinv hts hsort hrun
      simp only [runFrames] at hrun
      injection hrun with hrun
      rw [Prod.mk.injEq] at hrun
      obtain ⟨h1, h2⟩ := hrun
      subst h2
      simp only [List.append_nil]
      exact hinv.1
  | cons f rest ih =>
      intro st st2 tail evs tcur hinv hts hsort hrun
      rcases f with ⟨hands, t⟩
      simp only [runFrames] at hrun
      cases hp : process_hands cfg sizeOf hands t st with
      | none => rw [hp] at hrun; cases hrun
      | some p =>
          rcases p with ⟨st1, evs1⟩
          rw [hp] at hrun
          dsimp only at hrun
          cases hr : runFrames cfg sizeOf rest st1 with
          | none => rw [hr] at hrun; cases hrun
          | some p2 =>
              rcases p2 with ⟨st2', tail'⟩
              rw [hr] at hrun
              injection hrun with hrun
              rw [Prod.mk.injEq] at hrun
              obtain ⟨h1, h2⟩ := hrun
              subst h1; subst h2
              have ht : tcur ≤ t := hts (hands, t) (List.mem_cons_self _ _)
              have inv1 := process_hands_inv cfg sizeOf hands t tcur st st1
                evs1 evs hinv ht hp
              simp only [List.map_cons, List.pairwise_cons] at hsort
              obtain ⟨hhead, hrest⟩ := hsort
              have hts' : ∀ f ∈ rest, t ≤ f.2 := by
                intro f hf
                exact hhead f.2 (List.mem_map_of_mem Prod.snd hf)
              have := ih st1 st2' tail'
                (evs ++ evs1.map (fun e => (t, e))) t inv1 hts' hrest hr
              rw [List.append_assoc] at this
              exact this

/-- C2: over any run of the detector from its initial state on frames with
non-decreasing timestamps, no two emitted punch events for the same hand label
have timestamps that differ by less than the configured cooldown. -/
theorem punch_cooldown_invariant (cfg : Config) (sizeOf : List Lm → ℚ)
    (frames : List (List HandData × ℚ)) (st2 : DetectorState)
    (evs : List (ℚ × Event))
    (hsorted : (frames.map Prod.snd).Pairwise (· ≤ ·))
    (hrun : runFrames cfg sizeOf frames initState = some (st2, evs)) :
    ∀ (i j : ℕ) (hi : i < evs.length) (hj : j < evs.length), i < j →
      (evs.get ⟨i, hi⟩).2.hand = (evs.get ⟨j, hj⟩).2.hand →
      cfg.cooldownSec ≤ (evs.get ⟨j, hj⟩).1 - (evs.get ⟨i, hi⟩).1 := by
  have hsep : Separated cfg.cooldownSec evs := by
    cases frames with
    | nil =>
        simp only [runFrames] at hrun
        injection hrun with hrun
        rw [Prod.mk.injEq] at hrun
        obtain ⟨_, h2⟩ := hrun
        subst h2
        exact List.Pairwise.nil
    | cons f rest =>
        have hinv0 : DetInv cfg.cooldownSec initState [] f.2 := by
          refine ⟨List.Pairwise.nil, ?_, ?_⟩
          · intro te hte; cases hte
          · intro hid T hT; simp [initState, dget] at hT
        have hts : ∀ g ∈ f :: rest, f.2 ≤ g.2 := by
          intro g hg
          rcases List.mem_cons.mp hg with hg | hg
          · subst hg; exact le_refl _
          · simp only [List.map_cons, List.pairwise_cons] at hsorted
            exact hsorted.1 g.2 (List.mem_map_of_mem Prod.snd hg)
        have := runFrames_inv cfg sizeOf (f :: rest) initState st2 evs [] f.2
          hinv0 hts hsorted hrun
        simpa using this
  intro i j hi hj hij hhand
  exact List.pairwise_iff_get.mp hsep ⟨i, hi⟩ ⟨j, hj⟩ hij hhand

/-- A concrete closed-fist landmark set with every z-coordinate `c`: all
landmarks at the wrist except the thumb tip (index 4), giving span `0.1` and
all four fingers trivially curled. -/
def fistLmsZ (c : ℚ) : List Lm :=
  [⟨0,0,c⟩, ⟨0,0,c⟩, ⟨0,0,c⟩, ⟨0,0,c⟩, ⟨1/10,0,c⟩, ⟨0,0,c⟩, ⟨0,0,c⟩,
   ⟨0,0,c⟩, ⟨0,0,c⟩, ⟨0,0,c⟩, ⟨0,0,c⟩, ⟨0,0,c⟩, ⟨0,0,c⟩, ⟨0,0,c⟩,
   ⟨0,0,c⟩, ⟨0,0,c⟩, ⟨0,0,c⟩, ⟨0,0,c⟩, ⟨0,0,c⟩, ⟨0,0,c⟩, ⟨0,0,c⟩]

/-- C3 witness: `is_fist_characterization` at the concrete fist, with the
span hypothesis discharged by evaluation. -/
theorem is_fist_characterization_witness : is_fist (fistLmsZ 0) = true :=
  (((is_fist_characterization (fistLmsZ 0)).1 (by decide)).2
    (by with_unfolding_all decide)).mpr (by with_unfolding_all decide)

/-- C1 witness: a concrete emitting step — prior history sample `(0,1,0)`,
current frame at `t = 1` with measured size 2, so the size velocity is 1,
above the default threshold; the theorem's equivalence yields the emitted
event's fields. -/
theorem punch_emission_characterization_witness :
    (Event.mk "left" 1).hand = "Left".pyLower ∧
    (Event.mk "left" 1).strength =
      min 1 (|((2:ℚ) - 1) / ((1:ℚ) - 0)| / (defaultConfig.velocityThreshold * 2)) ∧
    dget (DetectorState.mk [("left", [⟨0,1,0⟩, ⟨1,2,0⟩])] [("left", 1)]).lastPunch
      "Left".pyLower = some 1 :=
  (punch_emission_characterization defaultConfig (fun _ => 2) "Left" (fistLmsZ 0)
    1 0
    ⟨[("left", [⟨0,1,0⟩])], []⟩
    ⟨[("left", [⟨0,1,0⟩, ⟨1,2,0⟩])], [("left", 1)]⟩
    (some ⟨"left", 1⟩)
    [⟨0,1,0⟩, ⟨1,2,0⟩] ⟨0,1,0⟩ ⟨1,2,0⟩
    (by with_unfolding_all rfl)
    (by with_unfolding_all rfl)
    (by with_unfolding_all rfl)
    (by with_unfolding_all rfl)
    (by with_unfolding_all decide)
    (by decide)
    rfl rfl
    (by with_unfolding_all decide)).2 ⟨"left", 1⟩ rfl

/-- A concrete three-frame trace: the same fist approaches the camera
(z dropping by 1 per frame), emitting punches at `t = 1` and `t = 2`. -/
def c2Frames : List (List HandData × ℚ) :=
  [([⟨fistLmsZ 0, "Left"⟩], 0),
   ([⟨fistLmsZ (-1), "Left"⟩], 1),
   ([⟨fistLmsZ (-2), "Left"⟩], 2)]

/-- The event trace `c2Frames` produces. -/
def c2Evs : List (ℚ × Event) := [(1, ⟨"left", 0⟩), (2, ⟨"left", 0⟩)]

/-- The detector state after `c2Frames`. -/
def c2Final : DetectorState :=
  ⟨[("left", [⟨0,0,0⟩, ⟨1,0,-1⟩, ⟨2,0,-2⟩])], [("left", 2)]⟩

/-- C2 witness: the cooldown invariant applied to the concrete trace at its
two emitted events. -/
theorem punch_cooldown_invariant_witness :
    defaultConfig.cooldownSec ≤
      (c2Evs.get ⟨1, by decide⟩).1 - (c2Evs.get ⟨0, by decide⟩).1 :=
  punch_cooldown_invariant defaultConfig (fun _ => 0) c2Frames c2Final c2Evs
    (by with_unfolding_all decide)
    (by with_unfolding_all rfl)
    0 1 (by decide) (by decide) (by decide)
    (by with_unfolding_all rfl)

/-- C4 witness: one hand with one landmark `(1,1,1)` smoothed against a prior
entry `(3,3,3)` — the output blends to `0.35·1 + 0.65·3` on every axis. -/
theorem smooth_landmarks_pointwise_witness :
    ((smooth_landmarks [⟨[⟨1,1,1⟩], "Left"⟩] [("left", [⟨3,3,3⟩])]).1[0]?).map
        (fun out => out.landmarks[0]?) =
      some (some ⟨35/100 * 1 + 65/100 * 3, 35/100 * 1 + 65/100 * 3,
        35/100 * 1 + 65/100 * 3⟩) := by
  obtain ⟨hlen, hpt⟩ :=
    smooth_landmarks_pointwise [⟨[⟨1,1,1⟩], "Left"⟩] [("left", [⟨3,3,3⟩])]
  obtain ⟨out, hout, hhand, hlen2, hblend⟩ := hpt 0 ⟨[⟨1,1,1⟩], "Left"⟩ rfl
  have h1 := (hblend 0 ⟨1,1,1⟩ rfl).1 [⟨3,3,3⟩] ⟨3,3,3⟩
    (by with_unfolding_all rfl) rfl
  rw [hout, Option.map_some', h1]

/-- C6 witness: the spec's end-to-end guard scenario — wrists at
`(0.45, 0.3)` and `(0.5, 0.3)`: both high, close together, average x between
the cut-points. -/
theorem compute_hand_state_characterization_witness :
    ((resolveState (some ((9:ℚ)/20, (3:ℚ)/10)) (some ((1:ℚ)/2, (3:ℚ)/10))).blocking
        = true ↔
      ((3:ℚ)/10 < 1/2 ∧ (3:ℚ)/10 < 1/2 ∧ |(9:ℚ)/20 - 1/2| < 2/5)) ∧
    (resolveState (some ((9:ℚ)/20, (3:ℚ)/10)) (some ((1:ℚ)/2, (3:ℚ)/10))).dodging =
      (if ((9:ℚ)/20 + 1/2) / 2 < 7/20 then some Dodge.left
       else if 13/20 < ((9:ℚ)/20 + 1/2) / 2 then some Dodge.right else none) :=
  (compute_hand_state_characterization
    [⟨[⟨9/20, 3/10, 0⟩], "Left"⟩, ⟨[⟨1/2, 3/10, 0⟩], "Right"⟩]
    (resolveState (some (9/20, 3/10)) (some (1/2, 3/10)))
    (by with_unfolding_all rfl)).1 (9/20, 3/10) (1/2, 3/10)
    (by with_unfolding_all rfl) (by with_unfolding_all rfl)

/-- C8-amended witness: a single-landmark (hence incomplete but non-empty)
observation is a classification miss with no event and no error. -/
theorem malformed_nonempty_is_miss_witness :
    is_fist [(⟨0,0,0⟩ : Lm)] = false ∧
    (update_and_detect defaultConfig (fun _ => 0) "Left" [⟨0,0,0⟩] 0
        initState).map (fun p => p.2) = some none ∧
    (process_hands defaultConfig (fun _ => 0) [⟨[⟨0,0,0⟩], "Left"⟩] 0
        initState).map (fun p => p.2) = some [] := by
  obtain ⟨hf, st', hu, hp⟩ := malformed_nonempty_is_miss defaultConfig
    (fun _ => 0) "Left" [⟨0,0,0⟩] 0 initState (by simp) (by decide)
  refine ⟨hf, ?_, ?_⟩
  · rw [hu]; rfl
  · rw [hp]; rfl

/-- C9 witness: first output equals the input with no prior state, and the
input is a fixed point when the prior entry equals the input. -/
theorem smoothing_convergence_witness :
    (smooth_landmarks [⟨[⟨1,1,1⟩], "Left"⟩] []).1 = [⟨[⟨1,1,1⟩], "Left"⟩] ∧
    (smooth_landmarks [⟨[⟨1,1,1⟩], "Left"⟩]
        [("Left".pyLower, [⟨1,1,1⟩])]).1 = [⟨[⟨1,1,1⟩], "Left"⟩] :=
  ⟨smoothing_convergence.1 [⟨[⟨1,1,1⟩], "Left"⟩],
   smoothing_convergence.2.2 ⟨[⟨1,1,1⟩], "Left"⟩⟩

/-- C10 witness: an observation labelled `"UnKnown"` lands in the right-wrist
slot and overwrites nothing on the left. -/
theorem right_slot_and_last_wins_witness :
    (resolveState (some ((1:ℚ), 2)) (some ((4:ℚ), 5))).right_wrist = some (4, 5) ∧
    (resolveState (some ((1:ℚ), 2)) (some ((4:ℚ), 5))).left_wrist =
      (resolveState (some ((1:ℚ), 2)) none).left_wrist :=
  (right_slot_and_last_wins [⟨[⟨1,2,3⟩], "Left"⟩] ⟨[⟨4,5,6⟩], "UnKnown"⟩ ⟨4,5,6⟩
    (resolveState (some (1, 2)) none) (resolveState (some (1, 2)) (some (4, 5)))
    rfl (by with_unfolding_all rfl) (by with_unfolding_all rfl)).1
    (by with_unfolding_all decide)
